import Mathlib

set_option maxHeartbeats 1000000

/-!
Shallow embedding of the VirtSquad operator reconciliation logic
(`internal/controller/virtsquad_controller.go`).

The cluster is modelled as an optional `VirtSquad` resource plus a list of
pods.  API calls that the controller performs are modelled as pure state
transformations together with an operation log (`Op`): list calls are pure
observations (filters over the pod list), create calls fail exactly when a
pod of the same name already exists in the namespace (AlreadyExists), and
delete calls during finalization are given an externally chosen outcome
(`DelOutcome`) so that NotFound / transient-error responses can be studied.
The 32-bit subtraction `currentReplicas - desiredReplicas` from the Go code
is modelled with an explicit two's-complement wrap (`wrap32`).
-/

/-- Labels carried by every pod the controller manages. -/
structure PodLabels where
  app : String
  member : String
  squad : String
deriving DecidableEq, Repr

/-- One entry of a pod's status conditions. -/
structure PodCondition where
  ctype : String
  cstatus : String
deriving DecidableEq, Repr

/-- A pod: name, namespace, labels and status conditions. -/
structure Pod where
  name : String
  ns : String
  labels : PodLabels
  conditions : List PodCondition
deriving DecidableEq, Repr

/-- `TeamMemberSpec` from the API types: optional base name, optional replica count. -/
structure TeamMemberSpec where
  name : Option String
  replicas : Option Int
deriving DecidableEq, Repr

/-- `VirtSquadSpec`: the four fixed team member fields. -/
structure VirtSquadSpec where
  oksana : Option TeamMemberSpec
  kurtis : Option TeamMemberSpec
  matt : Option TeamMemberSpec
  kike : Option TeamMemberSpec
deriving DecidableEq, Repr

/-- `VirtSquadStatus`: per-member pod name lists plus total/ready counters. -/
structure VirtSquadStatus where
  oksanaPods : List String
  kurtisPods : List String
  mattPods : List String
  kikePods : List String
  totalPods : Int
  readyPods : Int
deriving DecidableEq, Repr

/-- The zero value of `VirtSquadStatus` (Go's `&appsv1.VirtSquadStatus{}`). -/
def emptyStatus : VirtSquadStatus :=
  { oksanaPods := [], kurtisPods := [], mattPods := [], kikePods := []
    totalPods := 0, readyPods := 0 }

/-- The `VirtSquad` resource: identity, deletion mark, finalizers, spec, status. -/
structure VirtSquad where
  name : String
  ns : String
  deletionTimestamp : Bool
  finalizers : List String
  spec : VirtSquadSpec
  status : VirtSquadStatus
deriving DecidableEq, Repr

/-- Cluster state: the (possibly already deleted) resource and the pods. -/
structure ClusterState where
  squad : Option VirtSquad
  pods : List Pod
deriving DecidableEq, Repr

/-- An API mutation issued against the pod store (the operation log records
every create/delete call, including calls that fail). -/
inductive Op where
  | create (name ns : String)
  | delete (name ns : String)
deriving DecidableEq, Repr

/-- Outcome of a delete API call during finalization. -/
inductive DelOutcome where
  | ok
  | notFound
  | otherErr
deriving DecidableEq, Repr

/-- The outcome assignment in which every delete call succeeds. -/
def allOk : String → DelOutcome := fun _ => DelOutcome.ok

/-- `virtSquadFinalizer` constant from the controller. -/
def virtSquadFinalizer : String := "virtsquad.mshort55.io/finalizer"

/-- `isPodReady`: a pod is ready when some condition has type Ready and status True. -/
def isPodReady (p : Pod) : Bool :=
  p.conditions.any (fun c => c.ctype == "Ready" && c.cstatus == "True")

/-- The label selector used by `countReadyPods` and `finalizeVirtSquad`:
namespace plus `app=virtsquad` plus the squad label. -/
def squadMatchB (vs : VirtSquad) (p : Pod) : Bool :=
  p.ns == vs.ns && p.labels.app == "virtsquad" && p.labels.squad == vs.name

/-- The label selector used by `reconcileTeamMember` / `deleteTeamMemberPods`:
the squad selector plus the member label. -/
def memberMatchB (vs : VirtSquad) (memberName : String) (p : Pod) : Bool :=
  squadMatchB vs p && p.labels.member == memberName

/-- Two's-complement wrap of an integer to the int32 range, modelling Go's
32-bit subtraction `currentReplicas - desiredReplicas`. -/
def wrap32 (x : Int) : Int := (x + 2 ^ 31) % 2 ^ 32 - 2 ^ 31

/-- Effect of a successful pod delete call: every pod of that name in that
namespace disappears from the store. -/
def deleteByName (pods : List Pod) (n nsp : String) : List Pod :=
  pods.filter (fun p => !(p.name == n && p.ns == nsp))

/-- Sequentially delete each victim from the store. -/
def deleteAll (pods : List Pod) (victims : List Pod) : List Pod :=
  victims.foldl (fun acc v => deleteByName acc v.name v.ns) pods

/-- The pod constructed by `createPodForMember`: name `<base>-<ordinal>`, the
owner's namespace, the three membership labels, and no status conditions yet. -/
def newPodForMember (vs : VirtSquad) (memberName podBaseName : String) (i : Int) : Pod :=
  { name := podBaseName ++ "-" ++ toString i
    ns := vs.ns
    labels := { app := "virtsquad", member := memberName, squad := vs.name }
    conditions := [] }

/-- The scale-up loop of `reconcileTeamMember`: create pods for ordinals
`i, i+1, ...` (`k` of them).  A create call fails (AlreadyExists) when a pod
of the same name already exists in the namespace; the failing call is still
logged and the loop aborts, mirroring the early `return err`. -/
def createLoop (vs : VirtSquad) (memberName podBaseName : String) :
    List Pod → Int → Nat → List Pod × List Op × Bool
  | pods, _, 0 => (pods, [], true)
  | pods, i, k + 1 =>
    let p := newPodForMember vs memberName podBaseName i
    if pods.any (fun q => q.name == p.name && q.ns == p.ns) then
      (pods, [Op.create p.name p.ns], false)
    else
      let r := createLoop vs memberName podBaseName (pods ++ [p]) (i + 1) k
      (r.1, Op.create p.name p.ns :: r.2.1, r.2.2)

/-- `deleteTeamMemberPods`: list the member's pods, delete them all, set the
member's status list to the empty list. -/
def deleteTeamMemberPodsM (pods : List Pod) (vs : VirtSquad) (memberName : String) :
    List Pod × List Op × Option (List String) :=
  let existing := pods.filter (memberMatchB vs memberName)
  (deleteAll pods existing, existing.map (fun p => Op.delete p.name p.ns), some [])

/-- `reconcileTeamMember`.  Result: new pod store, the create/delete calls
issued, and `some statusPods` on success (`none` = the pass-aborting error of
a failed create).  Note the status list is built from `existingPods.Items`,
i.e. the listing taken before any create or delete of this call. -/
def reconcileTeamMemberM (pods : List Pod) (vs : VirtSquad) (memberName : String)
    (memberSpec : Option TeamMemberSpec) : List Pod × List Op × Option (List String) :=
  match memberSpec with
  | none => deleteTeamMemberPodsM pods vs memberName
  | some ms =>
    match ms.name with
    | none => deleteTeamMemberPodsM pods vs memberName
    | some base =>
      let desired : Int := ms.replicas.getD 1
      let existing := pods.filter (memberMatchB vs memberName)
      let current : Int := existing.length
      if current < desired then
        let r := createLoop vs memberName base pods current (desired - current).toNat
        if r.2.2 then (r.1, r.2.1, some (existing.map Pod.name))
        else (r.1, r.2.1, none)
      else if current > desired then
        let victims := existing.take (wrap32 (current - desired)).toNat
        (deleteAll pods victims, victims.map (fun p => Op.delete p.name p.ns),
          some (existing.map Pod.name))
      else
        (pods, [], some (existing.map Pod.name))

/-- The four sequential `reconcileTeamMember` calls of `Reconcile`, threading
the pod store and concatenating the operation logs; the first error aborts. -/
def reconcileMembers (pods : List Pod) (vs : VirtSquad) :
    List Pod × List Op × Option (List String × List String × List String × List String) :=
  let t1 := reconcileTeamMemberM pods vs "oksana" vs.spec.oksana
  match t1.2.2 with
  | none => (t1.1, t1.2.1, none)
  | some s1 =>
    let t2 := reconcileTeamMemberM t1.1 vs "kurtis" vs.spec.kurtis
    match t2.2.2 with
    | none => (t2.1, t1.2.1 ++ t2.2.1, none)
    | some s2 =>
      let t3 := reconcileTeamMemberM t2.1 vs "matt" vs.spec.matt
      match t3.2.2 with
      | none => (t3.1, t1.2.1 ++ t2.2.1 ++ t3.2.1, none)
      | some s3 =>
        let t4 := reconcileTeamMemberM t3.1 vs "kike" vs.spec.kike
        match t4.2.2 with
        | none => (t4.1, t1.2.1 ++ t2.2.1 ++ t3.2.1 ++ t4.2.1, none)
        | some s4 => (t4.1, t1.2.1 ++ t2.2.1 ++ t3.2.1 ++ t4.2.1, some (s1, s2, s3, s4))

/-- The finalization loop of `finalizeVirtSquad`: delete each listed pod in
order; any non-nil delete error (`notFound` or `otherErr`) is returned
immediately — the code does not special-case NotFound.  A `notFound`
response means the worker had already vanished between the list and the
delete call, so the store no longer holds it (the error is still
propagated); an `otherErr` response leaves the worker in place. -/
def finalizeLoop (outcome : String → DelOutcome) :
    List Pod → List Pod → List Pod × List Op × Bool
  | [], pods => (pods, [], true)
  | v :: rest, pods =>
    match outcome v.name with
    | DelOutcome.ok =>
      let r := finalizeLoop outcome rest (deleteByName pods v.name v.ns)
      (r.1, Op.delete v.name v.ns :: r.2.1, r.2.2)
    | DelOutcome.notFound =>
      (deleteByName pods v.name v.ns, [Op.delete v.name v.ns], false)
    | DelOutcome.otherErr => (pods, [Op.delete v.name v.ns], false)

/-- `finalizeVirtSquad`: list all pods with the squad selector and delete them. -/
def finalizeVirtSquadM (pods : List Pod) (vs : VirtSquad) (outcome : String → DelOutcome) :
    List Pod × List Op × Bool :=
  finalizeLoop outcome (pods.filter (squadMatchB vs)) pods

/-- The finalization branch of `Reconcile` for a deleting resource whose
finalizer is present: run `finalizeVirtSquad`; on success remove the
finalizer and persist (physical removal happens once no finalizers remain);
on failure return the error with the finalizer retained. -/
def deletionTail (pods : List Pod) (vs : VirtSquad) (outcome : String → DelOutcome) :
    ClusterState × List Op × Bool :=
  let f := finalizeVirtSquadM pods vs outcome
  if f.2.2 then
    let fin1 := vs.finalizers.filter (fun s => !(s == virtSquadFinalizer))
    if fin1.isEmpty then ({ squad := none, pods := f.1 }, f.2.1, true)
    else ({ squad := some { vs with finalizers := fin1 }, pods := f.1 }, f.2.1, true)
  else ({ squad := some vs, pods := f.1 }, f.2.1, false)

/-- The per-group reconciliation and status write of `Reconcile` (run with
the finalizer already ensured): the four member calls, the total computed
from the member lists, the ready count (zero and merely logged when its list
call fails), and the status update. -/
def passTail (pods : List Pod) (vs : VirtSquad) (readyFail : Bool) :
    ClusterState × List Op × Bool :=
  let m := reconcileMembers pods vs
  match m.2.2 with
  | none => ({ squad := some vs, pods := m.1 }, m.2.1, false)
  | some s =>
    let total : Int := (s.1.length : Int) + (s.2.1.length : Int)
      + (s.2.2.1.length : Int) + (s.2.2.2.length : Int)
    let ready : Int :=
      if readyFail then 0
      else ((m.1.filter (fun p => squadMatchB vs p && isPodReady p)).length : Int)
    let newStatus : VirtSquadStatus :=
      { oksanaPods := s.1, kurtisPods := s.2.1, mattPods := s.2.2.1,
        kikePods := s.2.2.2, totalPods := total, readyPods := ready }
    ({ squad := some { vs with status := newStatus }, pods := m.1 }, m.2.1, true)

/-- One full `Reconcile` pass.  `outcome` gives the responses of delete calls
made during finalization; `readyFail` injects a failure of the list call
inside `countReadyPods` (the only failure `Reconcile` merely logs).  All
other update/list calls succeed.  Result: new cluster state, the create and
delete calls issued, and whether the pass returned without error. -/
def reconcilePass (st : ClusterState) (outcome : String → DelOutcome) (readyFail : Bool) :
    ClusterState × List Op × Bool :=
  match st.squad with
  | none => (st, [], true)
  | some vs =>
    if vs.deletionTimestamp then
      if vs.finalizers.contains virtSquadFinalizer then deletionTail st.pods vs outcome
      else (st, [], true)
    else
      let vs1 := if vs.finalizers.contains virtSquadFinalizer then vs
                 else { vs with finalizers := vs.finalizers ++ [virtSquadFinalizer] }
      passTail st.pods vs1 readyFail

/-- Names are unique per namespace: the invariant the backing store guarantees. -/
def UniqP (pods : List Pod) : Prop :=
  pods.Pairwise (fun p q => ¬(p.name = q.name ∧ p.ns = q.ns))

theorem uniqP_eq_of_names {pods : List Pod} (h : UniqP pods) {p q : Pod}
    (hp : p ∈ pods) (hq : q ∈ pods) (hn : p.name = q.name) (hns : p.ns = q.ns) : p = q := by
  by_contra hne
  exact (h.forall (fun a b hab => fun hc => hab ⟨hc.1.symm, hc.2.symm⟩) hp hq hne) ⟨hn, hns⟩

theorem uniqP_sublist {l l' : List Pod} (hs : List.Sublist l l') (h : UniqP l') : UniqP l :=
  List.Pairwise.sublist hs h

theorem not_same_beq {p v : Pod} (h : ¬(p.name = v.name ∧ p.ns = v.ns)) :
    (!(p.name == v.name && p.ns == v.ns)) = true := by
  by_cases h1 : p.name = v.name
  · by_cases h2 : p.ns = v.ns
    · exact absurd ⟨h1, h2⟩ h
    · simp [h2]
  · simp [h1]

theorem not_same_of_beq {p v : Pod} (h : (!(p.name == v.name && p.ns == v.ns)) = true) :
    ¬(p.name = v.name ∧ p.ns = v.ns) := by
  intro hc
  simp [hc.1, hc.2] at h

theorem deleteAll_eq_filter (pods victims : List Pod) :
    deleteAll pods victims
      = pods.filter (fun p => victims.all (fun v => !(p.name == v.name && p.ns == v.ns))) := by
  induction victims generalizing pods with
  | nil =>
    simp [deleteAll, List.all_nil]
  | cons v rest ih =>
    show deleteAll (deleteByName pods v.name v.ns) rest = _
    rw [ih, deleteByName, List.filter_filter]
    refine List.filter_congr (fun p _ => ?_)
    simp [List.all_cons, Bool.and_comm]

theorem mem_deleteAll {pods victims : List Pod} {p : Pod} :
    p ∈ deleteAll pods victims
      ↔ p ∈ pods ∧ ∀ v ∈ victims, ¬(p.name = v.name ∧ p.ns = v.ns) := by
  rw [deleteAll_eq_filter]
  simp only [List.mem_filter, List.all_eq_true]
  constructor
  · rintro ⟨hp, hall⟩
    exact ⟨hp, fun v hv => not_same_of_beq (hall v hv)⟩
  · rintro ⟨hp, hall⟩
    exact ⟨hp, fun v hv => not_same_beq (hall v hv)⟩

theorem deleteAll_sublist (pods victims : List Pod) :
    List.Sublist (deleteAll pods victims) pods := by
  rw [deleteAll_eq_filter]
  exact List.filter_sublist _

theorem deleteAll_nil (pods : List Pod) : deleteAll pods [] = pods := rfl

/-- Deleting the full member filter removes every pod matching that filter. -/
theorem filter_deleteAll_self (pods : List Pod) (f : Pod → Bool) :
    (deleteAll pods (pods.filter f)).filter f = [] := by
  rw [List.filter_eq_nil_iff]
  intro p hp hf
  rw [mem_deleteAll] at hp
  exact hp.2 p (List.mem_filter.mpr ⟨hp.1, hf⟩) ⟨rfl, rfl⟩

/-- Removing, by name, a front segment of a duplicate-free list leaves exactly
the rest of the list. -/
theorem filter_front_names_drop {l : List Pod} (hu : UniqP l) (k : Nat) :
    l.filter (fun p => (l.take k).all (fun v => !(p.name == v.name && p.ns == v.ns)))
      = l.drop k := by
  induction l generalizing k with
  | nil => simp
  | cons a l ih =>
    cases k with
    | zero =>
      simp only [List.take_zero, List.all_nil]
      exact List.filter_true _
    | succ k =>
      have hrest : UniqP l := (List.pairwise_cons.mp hu).2
      have hhead : ∀ q ∈ l, ¬(q.name = a.name ∧ q.ns = a.ns) := by
        intro q hq hc
        exact (List.pairwise_cons.mp hu).1 q hq ⟨hc.1.symm, hc.2.symm⟩
      simp only [List.take_succ_cons, List.drop_succ_cons]
      rw [List.filter_cons_of_neg]
      · have hfc : ∀ p ∈ l,
            ((a :: l.take k).all (fun v => !(p.name == v.name && p.ns == v.ns)))
              = ((l.take k).all (fun v => !(p.name == v.name && p.ns == v.ns))) := by
          intro p hp
          simp only [List.all_cons, not_same_beq (hhead p hp), Bool.true_and]
        rw [List.filter_congr hfc]
        exact ih hrest k
      · simp [List.all_cons]

/-! ### Facts about created pods and the scale-up loop -/

theorem memberMatchB_newPod (vs : VirtSquad) (m base : String) (i : Int) :
    memberMatchB vs m (newPodForMember vs m base i) = true := by
  simp [memberMatchB, squadMatchB, newPodForMember]

theorem memberMatchB_newPod_other (vs : VirtSquad) (m m' base : String) (hne : m ≠ m')
    (i : Int) : memberMatchB vs m' (newPodForMember vs m base i) = false := by
  simp [memberMatchB, squadMatchB, newPodForMember, hne]

theorem isPodReady_newPod (vs : VirtSquad) (m base : String) (i : Int) :
    isPodReady (newPodForMember vs m base i) = false := rfl

theorem createLoop_ok_shape (vs : VirtSquad) (m base : String) :
    ∀ (k : Nat) (pods : List Pod) (i : Int),
      (createLoop vs m base pods i k).2.2 = true →
      (createLoop vs m base pods i k).1
          = pods ++ (List.range k).map
              (fun (j : Nat) => newPodForMember vs m base (i + (j : Int))) ∧
      (createLoop vs m base pods i k).2.1
          = (List.range k).map
              (fun (j : Nat) => Op.create (base ++ "-" ++ toString (i + (j : Int))) vs.ns) := by
  intro k
  induction k with
  | zero => intro pods i _; simp [createLoop]
  | succ k ih =>
    intro pods i h
    by_cases hc : (pods.any fun q =>
        q.name == (newPodForMember vs m base i).name && q.ns == (newPodForMember vs m base i).ns)
      = true
    · exfalso
      simp only [createLoop, hc, if_true] at h
      exact Bool.false_ne_true h
    · have hc' := Bool.of_not_eq_true hc
      simp only [createLoop, hc', Bool.false_eq_true, if_false] at h ⊢
      obtain ⟨h1, h2⟩ := ih (pods ++ [newPodForMember vs m base i]) (i + 1) h
      have hpods : (List.range (k + 1)).map
            (fun (j : Nat) => newPodForMember vs m base (i + (j : Int)))
          = newPodForMember vs m base i
            :: (List.range k).map (fun (j : Nat) => newPodForMember vs m base (i + 1 + (j : Int))) := by
        rw [List.range_succ_eq_map, List.map_cons, List.map_map]
        congr 1
        · norm_num
        · refine List.map_congr_left (fun j _ => ?_)
          have hi : i + ((j : Int) + 1) = i + 1 + (j : Int) := by ring
          simp [Function.comp, hi]
      have hops : (List.range (k + 1)).map
            (fun (j : Nat) => Op.create (base ++ "-" ++ toString (i + (j : Int))) vs.ns)
          = Op.create (base ++ "-" ++ toString i) vs.ns
            :: (List.range k).map
                (fun (j : Nat) => Op.create (base ++ "-" ++ toString (i + 1 + (j : Int))) vs.ns) := by
        rw [List.range_succ_eq_map, List.map_cons, List.map_map]
        congr 1
        · norm_num
        · refine List.map_congr_left (fun j _ => ?_)
          have hi : i + ((j : Int) + 1) = i + 1 + (j : Int) := by ring
          simp [Function.comp, hi]
      refine ⟨?_, ?_⟩
      · rw [h1, hpods, List.append_assoc, List.singleton_append]
      · rw [h2, hops]
        rfl

theorem createLoop_ok_uniq (vs : VirtSquad) (m base : String) :
    ∀ (k : Nat) (pods : List Pod) (i : Int),
      (createLoop vs m base pods i k).2.2 = true → UniqP pods →
      UniqP (createLoop vs m base pods i k).1 := by
  intro k
  induction k with
  | zero => intro pods i _ hu; simpa [createLoop] using hu
  | succ k ih =>
    intro pods i h hu
    by_cases hc : (pods.any fun q =>
        q.name == (newPodForMember vs m base i).name && q.ns == (newPodForMember vs m base i).ns)
      = true
    · exfalso
      simp only [createLoop, hc, if_true] at h
      exact Bool.false_ne_true h
    · have hc' := Bool.of_not_eq_true hc
      simp only [createLoop, hc', Bool.false_eq_true, if_false] at h ⊢
      refine ih (pods ++ [newPodForMember vs m base i]) (i + 1) h ?_
      rw [UniqP, List.pairwise_append]
      refine ⟨hu, List.pairwise_singleton _ _, ?_⟩
      intro a ha b hb
      rw [List.mem_singleton] at hb
      subst hb
      rw [List.any_eq_false] at hc'
      intro hab
      exact (hc' a ha) (by simp [hab.1, hab.2])

/-! ### Shapes of a successful group reconciliation step -/

/-- The listing a member step observes. -/
def stepE (pods : List Pod) (vs : VirtSquad) (m : String) : List Pod :=
  pods.filter (memberMatchB vs m)

/-- Branch analysis for a member step that did not return an error: either it
was the teardown path (absent spec or absent base name), or the spec carried a
base name and the step scaled up, scaled down, or did nothing. -/
theorem step_success_cases (pods : List Pod) (vs : VirtSquad) (m : String)
    (sp : Option TeamMemberSpec) (s : List String)
    (h : (reconcileTeamMemberM pods vs m sp).2.2 = some s) :
    ((sp = none ∨ ∃ r, sp = some { name := none, replicas := r })
      ∧ reconcileTeamMemberM pods vs m sp
        = (deleteAll pods (stepE pods vs m),
           (stepE pods vs m).map (fun p => Op.delete p.name p.ns), some [])
      ∧ s = [])
    ∨ (∃ base rep, sp = some { name := some base, replicas := rep }
        ∧ s = (stepE pods vs m).map Pod.name
        ∧ ((((stepE pods vs m).length : Int) < rep.getD 1
            ∧ (createLoop vs m base pods ((stepE pods vs m).length : Int)
                (rep.getD 1 - ((stepE pods vs m).length : Int)).toNat).2.2 = true
            ∧ reconcileTeamMemberM pods vs m sp
              = (pods ++ (List.range (rep.getD 1 - ((stepE pods vs m).length : Int)).toNat).map
                    (fun (j : Nat) => newPodForMember vs m base
                      (((stepE pods vs m).length : Int) + (j : Int))),
                 (List.range (rep.getD 1 - ((stepE pods vs m).length : Int)).toNat).map
                    (fun (j : Nat) => Op.create
                      (base ++ "-" ++ toString (((stepE pods vs m).length : Int) + (j : Int)))
                      vs.ns),
                 some s))
          ∨ (((stepE pods vs m).length : Int) > rep.getD 1
            ∧ reconcileTeamMemberM pods vs m sp
              = (deleteAll pods ((stepE pods vs m).take
                    (wrap32 (((stepE pods vs m).length : Int) - rep.getD 1)).toNat),
                 ((stepE pods vs m).take
                    (wrap32 (((stepE pods vs m).length : Int) - rep.getD 1)).toNat).map
                    (fun p => Op.delete p.name p.ns),
                 some s))
          ∨ (((stepE pods vs m).length : Int) = rep.getD 1
            ∧ reconcileTeamMemberM pods vs m sp = (pods, [], some s)))) := by
  match sp with
  | none =>
    left
    refine ⟨Or.inl rfl, rfl, ?_⟩
    have : (reconcileTeamMemberM pods vs m none).2.2 = some [] := rfl
    rw [this] at h
    exact (Option.some.inj h).symm
  | some ⟨none, rep⟩ =>
    left
    refine ⟨Or.inr ⟨rep, rfl⟩, rfl, ?_⟩
    have : (reconcileTeamMemberM pods vs m (some ⟨none, rep⟩)).2.2 = some [] := rfl
    rw [this] at h
    exact (Option.some.inj h).symm
  | some ⟨some base, rep⟩ =>
    right
    refine ⟨base, rep, rfl, ?_, ?_⟩
    · by_cases hlt : (((stepE pods vs m).length : Int) < rep.getD 1)
      · by_cases hok : (createLoop vs m base pods ((stepE pods vs m).length : Int)
            (rep.getD 1 - ((stepE pods vs m).length : Int)).toNat).2.2 = true
        · have : (reconcileTeamMemberM pods vs m (some ⟨some base, rep⟩)).2.2
              = some ((stepE pods vs m).map Pod.name) := by
            simp only [reconcileTeamMemberM, stepE] at *
            rw [if_pos hlt, hok]
            simp
          rw [this] at h
          exact (Option.some.inj h).symm
        · exfalso
          have : (reconcileTeamMemberM pods vs m (some ⟨some base, rep⟩)).2.2 = none := by
            simp only [reconcileTeamMemberM, stepE] at *
            rw [if_pos hlt, Bool.of_not_eq_true hok]
            simp
          rw [this] at h
          exact Option.noConfusion h
      · by_cases hgt : (((stepE pods vs m).length : Int) > rep.getD 1)
        · have : (reconcileTeamMemberM pods vs m (some ⟨some base, rep⟩)).2.2
              = some ((stepE pods vs m).map Pod.name) := by
            simp only [reconcileTeamMemberM, stepE] at *
            rw [if_neg hlt, if_pos hgt]
          rw [this] at h
          exact (Option.some.inj h).symm
        · have : (reconcileTeamMemberM pods vs m (some ⟨some base, rep⟩)).2.2
              = some ((stepE pods vs m).map Pod.name) := by
            simp only [reconcileTeamMemberM, stepE] at *
            rw [if_neg hlt, if_neg hgt]
          rw [this] at h
          exact (Option.some.inj h).symm
    · by_cases hlt : (((stepE pods vs m).length : Int) < rep.getD 1)
      · left
        by_cases hok : (createLoop vs m base pods ((stepE pods vs m).length : Int)
            (rep.getD 1 - ((stepE pods vs m).length : Int)).toNat).2.2 = true
        · refine ⟨hlt, hok, ?_⟩
          obtain ⟨h1, h2⟩ := createLoop_ok_shape vs m base
            (rep.getD 1 - ((stepE pods vs m).length : Int)).toNat pods
            ((stepE pods vs m).length : Int) hok
          have hval : reconcileTeamMemberM pods vs m (some ⟨some base, rep⟩)
              = ((createLoop vs m base pods ((stepE pods vs m).length : Int)
                    (rep.getD 1 - ((stepE pods vs m).length : Int)).toNat).1,
                 (createLoop vs m base pods ((stepE pods vs m).length : Int)
                    (rep.getD 1 - ((stepE pods vs m).length : Int)).toNat).2.1,
                 some ((stepE pods vs m).map Pod.name)) := by
            simp only [reconcileTeamMemberM, stepE] at *
            rw [if_pos hlt, hok]
            simp
          rw [hval] at h ⊢
          rw [h1, h2]
          have hs : s = (stepE pods vs m).map Pod.name := (Option.some.inj h).symm
          rw [hs]
        · exfalso
          have : (reconcileTeamMemberM pods vs m (some ⟨some base, rep⟩)).2.2 = none := by
            simp only [reconcileTeamMemberM, stepE] at *
            rw [if_pos hlt, Bool.of_not_eq_true hok]
            simp
          rw [this] at h
          exact Option.noConfusion h
      · by_cases hgt : (((stepE pods vs m).length : Int) > rep.getD 1)
        · right; left
          refine ⟨hgt, ?_⟩
          have hval : reconcileTeamMemberM pods vs m (some ⟨some base, rep⟩)
              = (deleteAll pods ((stepE pods vs m).take
                    (wrap32 (((stepE pods vs m).length : Int) - rep.getD 1)).toNat),
                 ((stepE pods vs m).take
                    (wrap32 (((stepE pods vs m).length : Int) - rep.getD 1)).toNat).map
                    (fun p => Op.delete p.name p.ns),
                 some ((stepE pods vs m).map Pod.name)) := by
            simp only [reconcileTeamMemberM, stepE] at *
            rw [if_neg hlt, if_pos hgt]
          rw [hval] at h ⊢
          have hs : s = (stepE pods vs m).map Pod.name := (Option.some.inj h).symm
          rw [hs]
        · right; right
          have heq : (((stepE pods vs m).length : Int) = rep.getD 1) := by omega
          refine ⟨heq, ?_⟩
          have hval : reconcileTeamMemberM pods vs m (some ⟨some base, rep⟩)
              = (pods, [], some ((stepE pods vs m).map Pod.name)) := by
            simp only [reconcileTeamMemberM, stepE] at *
            rw [if_neg hlt, if_neg hgt]
          rw [hval] at h ⊢
          have hs : s = (stepE pods vs m).map Pod.name := (Option.some.inj h).symm
          rw [hs]

/-! ### Arithmetic and filter helpers -/

theorem member_of_memberMatchB {vs : VirtSquad} {m : String} {p : Pod}
    (h : memberMatchB vs m p = true) : p.labels.member = m := by
  simp only [memberMatchB, Bool.and_eq_true, beq_iff_eq] at h
  exact h.2

theorem wrap32_id {x : Int} (h1 : -(2 ^ 31) ≤ x) (h2 : x < 2 ^ 31) : wrap32 x = x := by
  unfold wrap32
  omega

theorem wrap32_high {x : Int} (h1 : 2 ^ 31 ≤ x) (h2 : x < 2 ^ 31 + 2 ^ 32) :
    wrap32 x = x - 2 ^ 32 := by
  unfold wrap32
  omega

theorem wrap32_zero : wrap32 0 = 0 := by decide

/-- Deleting victims that all belong to member `m` does not change the pods
of a different member `m'` (names are unique, so a delete-by-name removes
only its own pod). -/
theorem filter_deleteAll_other {pods victims : List Pod} {vs : VirtSquad} {m m' : String}
    (hne : m ≠ m') (hu : UniqP pods)
    (hv : ∀ v ∈ victims, v ∈ pods ∧ memberMatchB vs m v = true) :
    (deleteAll pods victims).filter (memberMatchB vs m')
      = pods.filter (memberMatchB vs m') := by
  rw [deleteAll_eq_filter, List.filter_filter]
  refine List.filter_congr (fun p hp => ?_)
  by_cases hmm : memberMatchB vs m' p = true
  · rw [hmm]
    have hall : (victims.all fun v => !(p.name == v.name && p.ns == v.ns)) = true := by
      rw [List.all_eq_true]
      intro v hvv
      refine not_same_beq (fun hc => ?_)
      have hpv : p = v := uniqP_eq_of_names hu hp (hv v hvv).1 hc.1 hc.2
      have h1 : p.labels.member = m := member_of_memberMatchB (hpv ▸ (hv v hvv).2)
      have h2 : p.labels.member = m' := member_of_memberMatchB hmm
      exact hne (h1 ▸ h2)
    rw [hall]
    rfl
  · rw [Bool.of_not_eq_true hmm, Bool.false_and]

/-- A successful member step leaves the pod list of any other member intact. -/
theorem step_preserves_other {pods : List Pod} {vs : VirtSquad} {m m' : String}
    {sp : Option TeamMemberSpec} {s : List String} (hne : m ≠ m') (hu : UniqP pods)
    (h : (reconcileTeamMemberM pods vs m sp).2.2 = some s) :
    (reconcileTeamMemberM pods vs m sp).1.filter (memberMatchB vs m')
      = pods.filter (memberMatchB vs m') := by
  rcases step_success_cases pods vs m sp s h with ⟨-, heq, -⟩
    | ⟨base, rep, -, -, ⟨-, -, heq⟩ | ⟨-, heq⟩ | ⟨-, heq⟩⟩
  · rw [heq]
    exact filter_deleteAll_other hne hu (fun v hv =>
      ⟨List.mem_of_mem_filter hv, List.of_mem_filter hv⟩)
  · rw [heq]
    dsimp only
    rw [List.filter_append]
    have hnil : ((List.range (rep.getD 1 - ((stepE pods vs m).length : Int)).toNat).map
        (fun (j : Nat) => newPodForMember vs m base
          (((stepE pods vs m).length : Int) + (j : Int)))).filter (memberMatchB vs m') = [] := by
      rw [List.filter_eq_nil_iff]
      intro p hp
      rw [List.mem_map] at hp
      obtain ⟨j, -, hj⟩ := hp
      rw [← hj, memberMatchB_newPod_other vs m m' base hne]
      exact Bool.false_ne_true
    rw [hnil, List.append_nil]
  · rw [heq]
    dsimp only
    exact filter_deleteAll_other hne hu (fun v hv =>
      ⟨List.mem_of_mem_filter (List.mem_of_mem_take hv),
       List.of_mem_filter (List.mem_of_mem_take hv)⟩)
  · rw [heq]

/-! ### Readiness accounting for a member step -/

/-- A member step never increases the count of pods satisfying a predicate
that implies readiness: created pods carry no conditions, deletes only
remove. -/
theorem step_ready_mono {pods : List Pod} {vs : VirtSquad} {m : String}
    {sp : Option TeamMemberSpec} {s : List String} {q : Pod → Bool}
    (hq : ∀ p, q p = true → isPodReady p = true)
    (h : (reconcileTeamMemberM pods vs m sp).2.2 = some s) :
    (reconcileTeamMemberM pods vs m sp).1.countP q ≤ pods.countP q := by
  rcases step_success_cases pods vs m sp s h with ⟨-, heq, -⟩
    | ⟨base, rep, -, -, ⟨-, -, heq⟩ | ⟨-, heq⟩ | ⟨-, heq⟩⟩
  · rw [heq]
    exact List.Sublist.countP_le _ (deleteAll_sublist _ _)
  · rw [heq]
    dsimp only
    rw [List.countP_append]
    have hz : ((List.range (rep.getD 1 - ((stepE pods vs m).length : Int)).toNat).map
        (fun (j : Nat) => newPodForMember vs m base
          (((stepE pods vs m).length : Int) + (j : Int)))).countP q = 0 := by
      rw [List.countP_eq_zero]
      intro p hp hqp
      rw [List.mem_map] at hp
      obtain ⟨j, -, hj⟩ := hp
      have hr := hq p hqp
      rw [← hj, isPodReady_newPod] at hr
      exact Bool.false_ne_true hr
    omega
  · rw [heq]
    dsimp only
    exact List.Sublist.countP_le _ (deleteAll_sublist _ _)
  · rw [heq]

/-- After its own step, a member's count of ready pods is bounded by the
length of the status list the step reported. -/
theorem step_member_ready_le {pods : List Pod} {vs : VirtSquad} {m : String}
    {sp : Option TeamMemberSpec} {s : List String}
    (h : (reconcileTeamMemberM pods vs m sp).2.2 = some s) :
    (reconcileTeamMemberM pods vs m sp).1.countP
      (fun p => memberMatchB vs m p && isPodReady p) ≤ s.length := by
  have hbound : pods.countP (fun p => memberMatchB vs m p && isPodReady p)
      ≤ (stepE pods vs m).length := by
    calc pods.countP (fun p => memberMatchB vs m p && isPodReady p)
        ≤ pods.countP (memberMatchB vs m) :=
          List.countP_mono_left (fun p _ hp => (Bool.and_eq_true_iff.mp hp).1)
      _ = (stepE pods vs m).length := List.countP_eq_length_filter _ pods
  rcases step_success_cases pods vs m sp s h with ⟨-, heq, hs⟩
    | ⟨base, rep, -, hs, ⟨-, -, heq⟩ | ⟨-, heq⟩ | ⟨-, heq⟩⟩
  · rw [heq, hs]
    dsimp only
    have hzero : (deleteAll pods (stepE pods vs m)).countP
        (fun p => memberMatchB vs m p && isPodReady p) = 0 := by
      rw [List.countP_eq_zero]
      intro p hp hqp
      rw [mem_deleteAll] at hp
      have hmm : memberMatchB vs m p = true := (Bool.and_eq_true_iff.mp hqp).1
      exact hp.2 p (List.mem_filter.mpr ⟨hp.1, hmm⟩) ⟨rfl, rfl⟩
    simp [hzero]
  · rw [heq, hs]
    dsimp only
    rw [List.countP_append, List.length_map]
    have hz : ((List.range (rep.getD 1 - ((stepE pods vs m).length : Int)).toNat).map
        (fun (j : Nat) => newPodForMember vs m base
          (((stepE pods vs m).length : Int) + (j : Int)))).countP
        (fun p => memberMatchB vs m p && isPodReady p) = 0 := by
      rw [List.countP_eq_zero]
      intro p hp hqp
      rw [List.mem_map] at hp
      obtain ⟨j, -, hj⟩ := hp
      have hr := (Bool.and_eq_true_iff.mp hqp).2
      rw [← hj, isPodReady_newPod] at hr
      exact Bool.false_ne_true hr
    omega
  · rw [heq, hs]
    dsimp only
    rw [List.length_map]
    calc (deleteAll pods _).countP (fun p => memberMatchB vs m p && isPodReady p)
        ≤ pods.countP (fun p => memberMatchB vs m p && isPodReady p) :=
          List.Sublist.countP_le _ (deleteAll_sublist _ _)
      _ ≤ (stepE pods vs m).length := hbound
  · rw [heq, hs]
    dsimp only
    rw [List.length_map]
    exact hbound

/-- Every pod present after a member step was already present before it or
carries that member's label. -/
theorem step_origin {pods : List Pod} {vs : VirtSquad} {m : String}
    {sp : Option TeamMemberSpec} {s : List String} {p : Pod}
    (h : (reconcileTeamMemberM pods vs m sp).2.2 = some s)
    (hp : p ∈ (reconcileTeamMemberM pods vs m sp).1) :
    p ∈ pods ∨ p.labels.member = m := by
  rcases step_success_cases pods vs m sp s h with ⟨-, heq, -⟩
    | ⟨base, rep, -, -, ⟨-, -, heq⟩ | ⟨-, heq⟩ | ⟨-, heq⟩⟩
  · rw [heq] at hp
    exact Or.inl ((deleteAll_sublist _ _).subset hp)
  · rw [heq] at hp
    dsimp only at hp
    rcases List.mem_append.mp hp with hl | hr
    · exact Or.inl hl
    · rw [List.mem_map] at hr
      obtain ⟨j, -, hj⟩ := hr
      right
      rw [← hj]
      rfl
  · rw [heq] at hp
    dsimp only at hp
    exact Or.inl ((deleteAll_sublist _ _).subset hp)
  · rw [heq] at hp
    exact Or.inl hp

/-- A successful member step preserves per-namespace name uniqueness. -/
theorem step_uniq {pods : List Pod} {vs : VirtSquad} {m : String}
    {sp : Option TeamMemberSpec} {s : List String}
    (h : (reconcileTeamMemberM pods vs m sp).2.2 = some s) (hu : UniqP pods) :
    UniqP (reconcileTeamMemberM pods vs m sp).1 := by
  rcases step_success_cases pods vs m sp s h with ⟨-, heq, -⟩
    | ⟨base, rep, -, -, ⟨-, hok, heq⟩ | ⟨-, heq⟩ | ⟨-, heq⟩⟩
  · rw [heq]
    exact uniqP_sublist (deleteAll_sublist _ _) hu
  · rw [heq]
    dsimp only
    have hcl := createLoop_ok_uniq vs m base
      (rep.getD 1 - ((stepE pods vs m).length : Int)).toNat pods
      ((stepE pods vs m).length : Int) hok hu
    obtain ⟨h1, -⟩ := createLoop_ok_shape vs m base
      (rep.getD 1 - ((stepE pods vs m).length : Int)).toNat pods
      ((stepE pods vs m).length : Int) hok
    rw [h1] at hcl
    exact hcl
  · rw [heq]
    exact uniqP_sublist (deleteAll_sublist _ _) hu
  · rw [heq]
    exact hu

/-- Splitting the ready count over the four member labels. -/
theorem countP_ready_partition (vs : VirtSquad) (l : List Pod)
    (hm : ∀ p ∈ l, squadMatchB vs p = true →
      p.labels.member = "oksana" ∨ p.labels.member = "kurtis"
        ∨ p.labels.member = "matt" ∨ p.labels.member = "kike") :
    l.countP (fun p => squadMatchB vs p && isPodReady p)
      = l.countP (fun p => memberMatchB vs "oksana" p && isPodReady p)
      + l.countP (fun p => memberMatchB vs "kurtis" p && isPodReady p)
      + l.countP (fun p => memberMatchB vs "matt" p && isPodReady p)
      + l.countP (fun p => memberMatchB vs "kike" p && isPodReady p) := by
  induction l with
  | nil => simp
  | cons a l ih =>
    have ht := ih (fun p hp => hm p (List.mem_cons_of_mem a hp))
    simp only [List.countP_cons]
    rw [ht]
    suffices hif : (if (squadMatchB vs a && isPodReady a) = true then 1 else 0)
        = (if (memberMatchB vs "oksana" a && isPodReady a) = true then 1 else 0)
        + (if (memberMatchB vs "kurtis" a && isPodReady a) = true then 1 else 0)
        + (if (memberMatchB vs "matt" a && isPodReady a) = true then 1 else 0)
        + (if (memberMatchB vs "kike" a && isPodReady a) = true then 1 else 0) by omega
    by_cases hsq : squadMatchB vs a = true
    · by_cases hrd : isPodReady a = true
      · rcases hm a (List.mem_cons_self a l) hsq with h1 | h1 | h1 | h1 <;>
          simp +decide [memberMatchB, hsq, hrd, h1]
      · simp [memberMatchB, Bool.of_not_eq_true hrd]
    · simp [memberMatchB, Bool.of_not_eq_true hsq]


/-! ### Convergence of a member step -/

/-- Replica counts are int32 values in the API schema. -/
def repInRange (sp : Option TeamMemberSpec) : Prop :=
  match sp with
  | none => True
  | some ms => -(2 ^ 31) ≤ ms.replicas.getD 1 ∧ ms.replicas.getD 1 < 2 ^ 31

/-- A pod list on which this member's step has nothing left to do. -/
def StepConverged (vs : VirtSquad) (m : String) (sp : Option TeamMemberSpec)
    (T : List Pod) : Prop :=
  match sp with
  | none => T.filter (memberMatchB vs m) = []
  | some ms =>
    match ms.name with
    | none => T.filter (memberMatchB vs m) = []
    | some _ =>
      ¬(((T.filter (memberMatchB vs m)).length : Int) < ms.replicas.getD 1)
      ∧ (T.filter (memberMatchB vs m)).take
          (wrap32 (((T.filter (memberMatchB vs m)).length : Int) - ms.replicas.getD 1)).toNat
        = []

/-- On a converged pod list the member step changes nothing and issues no
create or delete call. -/
theorem step_noop_of_converged {T : List Pod} {vs : VirtSquad} {m : String}
    {sp : Option TeamMemberSpec} (hc : StepConverged vs m sp T) :
    ∃ s, reconcileTeamMemberM T vs m sp = (T, [], some s) := by
  match sp with
  | none =>
    refine ⟨[], ?_⟩
    show deleteTeamMemberPodsM T vs m = _
    unfold deleteTeamMemberPodsM
    rw [show T.filter (memberMatchB vs m) = [] from hc]
    rfl
  | some ⟨none, rep⟩ =>
    refine ⟨[], ?_⟩
    show deleteTeamMemberPodsM T vs m = _
    unfold deleteTeamMemberPodsM
    rw [show T.filter (memberMatchB vs m) = [] from hc]
    rfl
  | some ⟨some base, rep⟩ =>
    obtain ⟨hnl, htake⟩ := hc
    refine ⟨(T.filter (memberMatchB vs m)).map Pod.name, ?_⟩
    by_cases hgt : (((T.filter (memberMatchB vs m)).length : Int) > rep.getD 1)
    · have hval : reconcileTeamMemberM T vs m (some ⟨some base, rep⟩)
          = (deleteAll T ((T.filter (memberMatchB vs m)).take
                (wrap32 (((T.filter (memberMatchB vs m)).length : Int) - rep.getD 1)).toNat),
             ((T.filter (memberMatchB vs m)).take
                (wrap32 (((T.filter (memberMatchB vs m)).length : Int) - rep.getD 1)).toNat).map
                (fun p => Op.delete p.name p.ns),
             some ((T.filter (memberMatchB vs m)).map Pod.name)) := by
        simp only [reconcileTeamMemberM]
        rw [if_neg hnl, if_pos hgt]
      rw [hval, htake]
      rfl
    · have hval : reconcileTeamMemberM T vs m (some ⟨some base, rep⟩)
          = (T, [], some ((T.filter (memberMatchB vs m)).map Pod.name)) := by
        simp only [reconcileTeamMemberM]
        rw [if_neg hnl, if_neg hgt]
      rw [hval]

/-- After a successful member step (replica counts in int32 range, unique
names, fewer than `2^31` listed pods) the resulting pod list is converged
for that member. -/
theorem converged_after_step {pods : List Pod} {vs : VirtSquad} {m : String}
    {sp : Option TeamMemberSpec} {s : List String}
    (hu : UniqP pods) (hlen : ((stepE pods vs m).length : Int) < 2 ^ 31)
    (hrep : repInRange sp)
    (h : (reconcileTeamMemberM pods vs m sp).2.2 = some s) :
    StepConverged vs m sp (reconcileTeamMemberM pods vs m sp).1 := by
  have hE0 : (0 : Int) ≤ ((stepE pods vs m).length : Int) := Int.natCast_nonneg _
  rcases step_success_cases pods vs m sp s h with ⟨hsp, heq, -⟩
    | ⟨base, rep, hsp, -, hcase⟩
  · rcases hsp with hsp | ⟨r, hsp⟩ <;> subst hsp <;>
      · show (reconcileTeamMemberM _ _ _ _).1.filter (memberMatchB vs m) = []
        rw [heq]
        exact filter_deleteAll_self pods (memberMatchB vs m)
  · subst hsp
    obtain ⟨hr1, hr2⟩ := hrep
    have hr1' : -(2 ^ 31) ≤ rep.getD 1 := hr1
    have hr2' : rep.getD 1 < 2 ^ 31 := hr2
    rcases hcase with ⟨hlt, hok, heq⟩ | ⟨hgt, heq⟩ | ⟨hceq, heq⟩
    · -- scale-up: the new member list has exactly the desired length
      rw [heq]
      have hnews : ((List.range (rep.getD 1 - ((stepE pods vs m).length : Int)).toNat).map
          (fun (j : Nat) => newPodForMember vs m base
            (((stepE pods vs m).length : Int) + (j : Int)))).filter (memberMatchB vs m)
          = (List.range (rep.getD 1 - ((stepE pods vs m).length : Int)).toNat).map
          (fun (j : Nat) => newPodForMember vs m base
            (((stepE pods vs m).length : Int) + (j : Int))) := by
        rw [List.filter_eq_self]
        intro p hp
        rw [List.mem_map] at hp
        obtain ⟨j, -, hj⟩ := hp
        rw [← hj]
        exact memberMatchB_newPod vs m base _
      have hlen' : (((pods ++ (List.range
            (rep.getD 1 - ((stepE pods vs m).length : Int)).toNat).map
            (fun (j : Nat) => newPodForMember vs m base
              (((stepE pods vs m).length : Int) + (j : Int)))).filter
                (memberMatchB vs m)).length : Int)
          = rep.getD 1 := by
        rw [List.filter_append, hnews, List.length_append, List.length_map,
          List.length_range]
        have hlt' : ((stepE pods vs m).length : Int) < rep.getD 1 := hlt
        have hEe : (pods.filter (memberMatchB vs m)) = stepE pods vs m := rfl
        rw [hEe]
        push_cast
        rw [Int.toNat_of_nonneg (by omega)]
        omega
      refine ⟨?_, ?_⟩
      · dsimp only
        rw [hlen']
        omega
      · dsimp only
        rw [hlen', show rep.getD 1 - rep.getD 1 = 0 by omega, wrap32_zero]
        rfl
    · -- scale-down
      rw [heq]
      have hEu : UniqP (stepE pods vs m) := uniqP_sublist (List.filter_sublist _) hu
      have hdel : (deleteAll pods ((stepE pods vs m).take
            (wrap32 (((stepE pods vs m).length : Int) - rep.getD 1)).toNat)).filter
            (memberMatchB vs m)
          = (stepE pods vs m).drop
            (wrap32 (((stepE pods vs m).length : Int) - rep.getD 1)).toNat := by
        rw [deleteAll_eq_filter, List.filter_filter]
        have hstep : pods.filter (fun p => memberMatchB vs m p
              && ((stepE pods vs m).take
                (wrap32 (((stepE pods vs m).length : Int) - rep.getD 1)).toNat).all
                  (fun v => !(p.name == v.name && p.ns == v.ns)))
            = pods.filter (fun p => (((stepE pods vs m).take
                (wrap32 (((stepE pods vs m).length : Int) - rep.getD 1)).toNat).all
                  (fun v => !(p.name == v.name && p.ns == v.ns)))
                && memberMatchB vs m p) :=
          List.filter_congr (fun p _ => Bool.and_comm _ _)
        rw [hstep, ← List.filter_filter]
        exact filter_front_names_drop hEu _
      set w : Nat
        := (wrap32 (((stepE pods vs m).length : Int) - rep.getD 1)).toNat with hw
      have hsummary : ((((stepE pods vs m).drop w).length : Int) = rep.getD 1
            ∧ 0 ≤ rep.getD 1)
          ∨ ((stepE pods vs m).drop w = [] ∧ rep.getD 1 < 0)
          ∨ (w = 0 ∧ rep.getD 1 < 0) := by
        by_cases hx : ((stepE pods vs m).length : Int) - rep.getD 1 < 2 ^ 31
        · have hwr : wrap32 (((stepE pods vs m).length : Int) - rep.getD 1)
              = ((stepE pods vs m).length : Int) - rep.getD 1 := wrap32_id (by omega) hx
          have hwv : (w : Int) = ((stepE pods vs m).length : Int) - rep.getD 1 := by
            rw [hw, hwr, Int.toNat_of_nonneg (by omega)]
          by_cases hd : 0 ≤ rep.getD 1
          · left
            refine ⟨?_, hd⟩
            rw [List.length_drop]
            omega
          · right; left
            refine ⟨List.drop_eq_nil_of_le (by omega), by omega⟩
        · have hwr : wrap32 (((stepE pods vs m).length : Int) - rep.getD 1)
              = ((stepE pods vs m).length : Int) - rep.getD 1 - 2 ^ 32 :=
            wrap32_high (by omega) (by omega)
          have hw0 : w = 0 := by
            rw [hw, hwr]
            apply Int.toNat_of_nonpos
            omega
          exact Or.inr (Or.inr ⟨hw0, by omega⟩)
      refine ⟨?_, ?_⟩
      · dsimp only
        rw [hdel]
        rcases hsummary with ⟨hl, hd⟩ | ⟨hnil, hd⟩ | ⟨hw0, hd⟩
        · rw [hl]
          omega
        · rw [hnil]
          simp
          omega
        · rw [hw0, List.drop_zero]
          omega
      · dsimp only
        rw [hdel]
        rcases hsummary with ⟨hl, hd⟩ | ⟨hnil, hd⟩ | ⟨hw0, hd⟩
        · rw [hl, show rep.getD 1 - rep.getD 1 = 0 by omega, wrap32_zero]
          rfl
        · rw [hnil]
          simp
        · rw [hw0, List.drop_zero, ← hw, hw0]
          rfl
    · -- already equal: nothing to do
      rw [heq]
      have hEq : ((pods.filter (memberMatchB vs m)).length : Int) = rep.getD 1 := hceq
      refine ⟨?_, ?_⟩
      · dsimp only
        rw [hEq]
        omega
      · dsimp only
        rw [hEq, show rep.getD 1 - rep.getD 1 = 0 by omega, wrap32_zero]
        rfl

/-! ### Finalization loop -/

theorem finalizeLoop_ok_iff (outcome : String → DelOutcome) :
    ∀ (victims pods : List Pod),
      (finalizeLoop outcome victims pods).2.2 = true
        ↔ ∀ v ∈ victims, outcome v.name = DelOutcome.ok := by
  intro victims
  induction victims with
  | nil => intro pods; simp [finalizeLoop]
  | cons v rest ih =>
    intro pods
    cases ho : outcome v.name with
    | ok =>
      simp only [finalizeLoop, ho]
      rw [ih (deleteByName pods v.name v.ns)]
      constructor
      · intro hall w hw
        rcases List.mem_cons.mp hw with hh | ht
        · rw [hh, ho]
        · exact hall w ht
      · intro hall w hw
        exact hall w (List.mem_cons_of_mem v hw)
    | notFound =>
      simp only [finalizeLoop, ho]
      constructor
      · intro hfalse
        exact absurd hfalse Bool.false_ne_true
      · intro hall
        have := hall v (List.mem_cons_self v rest)
        rw [ho] at this
        exact absurd this (by simp)
    | otherErr =>
      simp only [finalizeLoop, ho]
      constructor
      · intro hfalse
        exact absurd hfalse Bool.false_ne_true
      · intro hall
        have := hall v (List.mem_cons_self v rest)
        rw [ho] at this
        exact absurd this (by simp)

theorem finalizeLoop_allOk_state (outcome : String → DelOutcome) :
    ∀ (victims pods : List Pod), (∀ v ∈ victims, outcome v.name = DelOutcome.ok) →
      finalizeLoop outcome victims pods
        = (deleteAll pods victims, victims.map (fun v => Op.delete v.name v.ns), true) := by
  intro victims
  induction victims with
  | nil => intro pods _; rfl
  | cons v rest ih =>
    intro pods hall
    have ho : outcome v.name = DelOutcome.ok := hall v (List.mem_cons_self v rest)
    simp only [finalizeLoop, ho]
    rw [ih (deleteByName pods v.name v.ns) (fun w hw => hall w (List.mem_cons_of_mem v hw))]
    rfl

theorem contains_marker_append (l : List String) :
    (l ++ [virtSquadFinalizer]).contains virtSquadFinalizer = true := by
  simp [List.contains, List.elem_eq_mem]

theorem contains_filter_marker (l : List String) :
    (l.filter (fun s => !(s == virtSquadFinalizer))).contains virtSquadFinalizer = false := by
  simp [List.contains, List.elem_eq_mem, List.mem_filter]

/-! ### Concrete fixtures -/

def fixLabels (m : String) : PodLabels :=
  { app := "virtsquad", member := m, squad := "sq" }

def fixSpecOksanaA1 : VirtSquadSpec :=
  { oksana := some { name := some "a", replicas := some 1 },
    kurtis := none, matt := none, kike := none }

def fixSquad : VirtSquad :=
  { name := "sq", ns := "default", deletionTimestamp := false,
    finalizers := [virtSquadFinalizer], spec := fixSpecOksanaA1, status := emptyStatus }

def fixPodOksana : Pod :=
  { name := "b-0", ns := "default", labels := fixLabels "oksana", conditions := [] }

/-- A constantly-NotFound delete outcome. -/
def notFoundOutcome : String → DelOutcome := fun _ => DelOutcome.notFound

/-! ### Claim C1 -/

/-- C1 counterexample: scaling oksana up from zero pods issues the create call
for `a-0`, yet the returned member list is `[]` — the newly created worker's
name is NOT included, contradicting the claim. -/
theorem c1_counterexample :
    (reconcileTeamMemberM [] fixSquad "oksana"
        (some { name := some "a", replicas := some 1 })).2.1
      = [Op.create "a-0" "default"]
    ∧ (reconcileTeamMemberM [] fixSquad "oksana"
        (some { name := some "a", replicas := some 1 })).2.2
      = some [] := by
  decide

/-- C1 (amended): for a group with a non-null spec and base name,
`reconcileGroup` returns the PRE-operation member list — exactly the names
observed by the list call — which excludes workers created during scale-up
and still includes workers deleted during scale-down. -/
theorem c1_pre_operation_member_list (pods : List Pod) (vs : VirtSquad)
    (m base : String) (rep : Option Int) (s : List String)
    (h : (reconcileTeamMemberM pods vs m
        (some { name := some base, replicas := rep })).2.2 = some s) :
    s = (pods.filter (memberMatchB vs m)).map Pod.name := by
  rcases step_success_cases pods vs m _ s h with ⟨hsp, -, -⟩ | ⟨base', rep', -, hs, -⟩
  · rcases hsp with hsp | ⟨r, hsp⟩ <;> simp at hsp
  · exact hs

theorem c1_pre_operation_member_list_witness :
    ([] : List String) = (([] : List Pod).filter (memberMatchB fixSquad "oksana")).map Pod.name :=
  c1_pre_operation_member_list [] fixSquad "oksana" "a" (some 0) [] (by decide)

/-! ### Claim C2 -/

/-- C2 counterexample: a negative replica count (−1) with one existing worker
does not surface any validation error — the step succeeds — and it performs a
delete, contradicting "no create or delete operations". -/
theorem c2_counterexample :
    (reconcileTeamMemberM [fixPodOksana] fixSquad "oksana"
        (some { name := some "a", replicas := some (-1) })).2.2 = some ["b-0"]
    ∧ (reconcileTeamMemberM [fixPodOksana] fixSquad "oksana"
        (some { name := some "a", replicas := some (-1) })).2.1
      = [Op.delete "b-0" "default"] := by
  decide

/-- C2 (amended): a negative replicas value is not validated; the group
reconciler treats it as a scale-down target, deleting every listed worker of
the group (the delete loop is clamped to the observed count) and returning
success. (The hypothesis keeps the 32-bit subtraction from wrapping.) -/
theorem c2_negative_replicas_deletes_all (pods : List Pod) (vs : VirtSquad)
    (m base : String) (r : Int) (hr : r < 0)
    (hw : ((pods.filter (memberMatchB vs m)).length : Int) - r < 2 ^ 31) :
    reconcileTeamMemberM pods vs m (some { name := some base, replicas := some r })
      = (deleteAll pods (pods.filter (memberMatchB vs m)),
         (pods.filter (memberMatchB vs m)).map (fun p => Op.delete p.name p.ns),
         some ((pods.filter (memberMatchB vs m)).map Pod.name)) := by
  have hcur : (0 : Int) ≤ ((pods.filter (memberMatchB vs m)).length : Int) :=
    Int.natCast_nonneg _
  have hlt : ¬(((pods.filter (memberMatchB vs m)).length : Int) < (some r : Option Int).getD 1) := by
    show ¬(((pods.filter (memberMatchB vs m)).length : Int) < r)
    omega
  have hgt : ((pods.filter (memberMatchB vs m)).length : Int) > (some r : Option Int).getD 1 := by
    show ((pods.filter (memberMatchB vs m)).length : Int) > r
    omega
  have hval : reconcileTeamMemberM pods vs m (some { name := some base, replicas := some r })
      = (deleteAll pods ((pods.filter (memberMatchB vs m)).take
            (wrap32 (((pods.filter (memberMatchB vs m)).length : Int)
              - (some r : Option Int).getD 1)).toNat),
         ((pods.filter (memberMatchB vs m)).take
            (wrap32 (((pods.filter (memberMatchB vs m)).length : Int)
              - (some r : Option Int).getD 1)).toNat).map (fun p => Op.delete p.name p.ns),
         some ((pods.filter (memberMatchB vs m)).map Pod.name)) := by
    simp only [reconcileTeamMemberM]
    rw [if_neg hlt, if_pos hgt]
  have hwr : wrap32 (((pods.filter (memberMatchB vs m)).length : Int)
        - (some r : Option Int).getD 1)
      = ((pods.filter (memberMatchB vs m)).length : Int) - r := by
    show wrap32 (((pods.filter (memberMatchB vs m)).length : Int) - r) = _
    exact wrap32_id (by omega) (by omega)
  have htake : (pods.filter (memberMatchB vs m)).take
        ((((pods.filter (memberMatchB vs m)).length : Int) - r)).toNat
      = pods.filter (memberMatchB vs m) :=
    List.take_of_length_le (by omega)
  rw [hval, hwr, htake]

theorem c2_negative_replicas_deletes_all_witness :
    reconcileTeamMemberM [fixPodOksana] fixSquad "oksana"
        (some { name := some "a", replicas := some (-1) })
      = (deleteAll [fixPodOksana] ([fixPodOksana].filter (memberMatchB fixSquad "oksana")),
         ([fixPodOksana].filter (memberMatchB fixSquad "oksana")).map
            (fun p => Op.delete p.name p.ns),
         some (([fixPodOksana].filter (memberMatchB fixSquad "oksana")).map Pod.name)) :=
  c2_negative_replicas_deletes_all [fixPodOksana] fixSquad "oksana" "a" (-1)
    (by decide) (by decide)

/-! ### Claim C3 -/

/-- C3 counterexample: the only owned worker's delete reports NotFound
("already gone"); the claim says finalize must succeed, but the code
propagates the error and finalize fails. -/
theorem c3_counterexample :
    (finalizeVirtSquadM [fixPodOksana] fixSquad notFoundOutcome).2.2 = false := by
  decide

/-- C3 (amended): finalize succeeds iff every delete of an owned worker
returns plain success; a NotFound response is propagated as a failure, not
treated as success-of-intent. -/
theorem c3_finalize_success_iff_all_deletes_ok (pods : List Pod) (vs : VirtSquad)
    (outcome : String → DelOutcome) :
    (finalizeVirtSquadM pods vs outcome).2.2 = true
      ↔ ∀ p ∈ pods.filter (squadMatchB vs), outcome p.name = DelOutcome.ok :=
  finalizeLoop_ok_iff outcome _ pods

/-! ### Claim C8 -/

/-- C8: when the observed count is below the desired count and the creates
go through, the group reconciler issues exactly `desired − current` create
calls, one per ordinal `current, ..., desired−1`, each named
`<baseName>-<ordinal>` in the owner's namespace. -/
theorem c8_scale_up_creates (pods : List Pod) (vs : VirtSquad) (m base : String)
    (rep : Option Int)
    (hlt : ((pods.filter (memberMatchB vs m)).length : Int) < rep.getD 1)
    (hok : (reconcileTeamMemberM pods vs m
        (some { name := some base, replicas := rep })).2.2 ≠ none) :
    (reconcileTeamMemberM pods vs m (some { name := some base, replicas := rep })).2.1
      = (List.range (rep.getD 1 - ((pods.filter (memberMatchB vs m)).length : Int)).toNat).map
          (fun (j : Nat) => Op.create
            (base ++ "-" ++ toString (((pods.filter (memberMatchB vs m)).length : Int) + (j : Int)))
            vs.ns)
    ∧ (reconcileTeamMemberM pods vs m (some { name := some base, replicas := rep })).2.1.length
      = (rep.getD 1 - ((pods.filter (memberMatchB vs m)).length : Int)).toNat := by
  obtain ⟨s, hs⟩ := Option.ne_none_iff_exists'.mp hok
  have hltE : ((stepE pods vs m).length : Int) < rep.getD 1 := hlt
  rcases step_success_cases pods vs m _ s hs with ⟨hsp, -, -⟩
    | ⟨base', rep', hsp, -, ⟨-, -, heq⟩ | ⟨hgt, -⟩ | ⟨hceq, -⟩⟩
  · rcases hsp with hsp | ⟨r, hsp⟩ <;> simp at hsp
  · simp only [Option.some.injEq, TeamMemberSpec.mk.injEq] at hsp
    have hbb : base' = base := by
      have := hsp.1
      simp only [Option.some.injEq] at this
      exact this.symm
    have hrr : rep' = rep := hsp.2.symm
    subst hbb
    subst hrr
    rw [heq]
    refine ⟨rfl, ?_⟩
    dsimp only
    rw [List.length_map, List.length_range]
    rfl
  · exfalso
    simp only [Option.some.injEq, TeamMemberSpec.mk.injEq] at hsp
    have hrr : rep' = rep := hsp.2.symm
    rw [hrr] at hgt
    omega
  · exfalso
    simp only [Option.some.injEq, TeamMemberSpec.mk.injEq] at hsp
    have hrr : rep' = rep := hsp.2.symm
    rw [hrr] at hceq
    omega

theorem c8_scale_up_creates_witness :
    (reconcileTeamMemberM [] fixSquad "oksana"
        (some { name := some "a", replicas := some 2 })).2.1
      = [Op.create "a-0" "default", Op.create "a-1" "default"] := by
  have h := c8_scale_up_creates [] fixSquad "oksana" "a" (some 2) (by decide) (by decide)
  rw [h.1]
  decide

/-! ### Claim C10 -/

/-- C10: a group spec that is present but has a null base name is handled
exactly like an absent group: same result as the absent-spec path, every
worker matching the group's membership key is deleted, the reported member
list is empty, and no error is returned. -/
theorem c10_null_basename_teardown (pods : List Pod) (vs : VirtSquad) (m : String)
    (r : Option Int) :
    reconcileTeamMemberM pods vs m (some { name := none, replicas := r })
      = reconcileTeamMemberM pods vs m none
    ∧ (reconcileTeamMemberM pods vs m (some { name := none, replicas := r })).2.2 = some []
    ∧ ((reconcileTeamMemberM pods vs m (some { name := none, replicas := r })).1).filter
        (memberMatchB vs m) = [] := by
  refine ⟨rfl, rfl, ?_⟩
  show (deleteTeamMemberPodsM pods vs m).1.filter (memberMatchB vs m) = []
  exact filter_deleteAll_self pods (memberMatchB vs m)

/-! ### Unfolding lemmas for the pass -/

theorem contains_iff_mem (l : List String) (x : String) : l.contains x = true ↔ x ∈ l := by
  simp [List.contains, List.elem_eq_mem]

theorem reconcilePass_nondeleting_marker {pods : List Pod} {vs : VirtSquad}
    (o : String → DelOutcome) (rf : Bool) (hnd : vs.deletionTimestamp = false)
    (hfin : vs.finalizers.contains virtSquadFinalizer = true) :
    reconcilePass { squad := some vs, pods := pods } o rf = passTail pods vs rf := by
  have hm : virtSquadFinalizer ∈ vs.finalizers := (contains_iff_mem _ _).mp hfin
  simp [reconcilePass, hnd, hm]

theorem reconcilePass_nondeleting_nomarker {pods : List Pod} {vs : VirtSquad}
    (o : String → DelOutcome) (rf : Bool) (hnd : vs.deletionTimestamp = false)
    (hfin : vs.finalizers.contains virtSquadFinalizer = false) :
    reconcilePass { squad := some vs, pods := pods } o rf
      = passTail pods { vs with finalizers := vs.finalizers ++ [virtSquadFinalizer] } rf := by
  have hm : ¬(virtSquadFinalizer ∈ vs.finalizers) := by
    intro hmem
    rw [(contains_iff_mem _ _).mpr hmem] at hfin
    exact Bool.noConfusion hfin
  simp [reconcilePass, hnd, hm]

theorem reconcilePass_deleting_marker {pods : List Pod} {vs : VirtSquad}
    (o : String → DelOutcome) (rf : Bool) (hd : vs.deletionTimestamp = true)
    (hfin : vs.finalizers.contains virtSquadFinalizer = true) :
    reconcilePass { squad := some vs, pods := pods } o rf = deletionTail pods vs o := by
  have hm : virtSquadFinalizer ∈ vs.finalizers := (contains_iff_mem _ _).mp hfin
  simp [reconcilePass, hd, hm]

theorem reconcilePass_deleting_nomarker {pods : List Pod} {vs : VirtSquad}
    (o : String → DelOutcome) (rf : Bool) (hd : vs.deletionTimestamp = true)
    (hfin : vs.finalizers.contains virtSquadFinalizer = false) :
    reconcilePass { squad := some vs, pods := pods } o rf
      = ({ squad := some vs, pods := pods }, [], true) := by
  have hm : ¬(virtSquadFinalizer ∈ vs.finalizers) := by
    intro hmem
    rw [(contains_iff_mem _ _).mpr hmem] at hfin
    exact Bool.noConfusion hfin
  simp [reconcilePass, hd, hm]

/-! ### Claim C4 -/

def fixSquadNoMarker : VirtSquad :=
  { fixSquad with finalizers := [], status := { emptyStatus with totalPods := 7 } }

/-- C4 counterexample: first observation of a non-deleting resource (marker
absent).  The pass adds the marker but then CONTINUES: it issues the create
call for oksana's pod and overwrites the status (sentinel 7 becomes 0) in the
same pass, contradicting "stops that pass without any per-group
reconciliation or status write". -/
theorem c4_counterexample :
    (reconcilePass { squad := some fixSquadNoMarker, pods := [] } allOk false).2.1
      = [Op.create "a-0" "default"]
    ∧ (reconcilePass { squad := some fixSquadNoMarker, pods := [] } allOk false).2.2 = true
    ∧ (reconcilePass { squad := some fixSquadNoMarker, pods := [] } allOk false).1.squad.map
        (fun v => v.status.totalPods) = some 0
    ∧ (reconcilePass { squad := some fixSquadNoMarker, pods := [] } allOk false).1.squad.map
        (fun v => v.finalizers) = some [virtSquadFinalizer] := by
  decide

/-- C4 (amended): on a non-deleting resource without the completion marker,
the pass adds the marker, persists it, and then CONTINUES the same pass — it
behaves exactly as the pass on the resource with the marker already present
(per-group reconciliation and the status write happen in the same pass), and
every resource state it leaves behind carries the marker. -/
theorem passTail_squad_finalizers (pods : List Pod) (vs : VirtSquad) (rf : Bool) :
    ∀ vs', (passTail pods vs rf).1.squad = some vs' → vs'.finalizers = vs.finalizers := by
  unfold passTail
  dsimp only
  cases hm : (reconcileMembers pods vs).2.2 with
  | none =>
    intro vs' h
    dsimp only at h
    rw [← Option.some.inj h]
  | some s =>
    intro vs' h
    dsimp only at h
    rw [← Option.some.inj h]

theorem c4_marker_added_pass_continues (st : ClusterState) (vs : VirtSquad)
    (o : String → DelOutcome) (rf : Bool) (hsq : st.squad = some vs)
    (hnd : vs.deletionTimestamp = false)
    (hfin : vs.finalizers.contains virtSquadFinalizer = false) :
    reconcilePass st o rf
      = reconcilePass { squad := some { vs with
          finalizers := vs.finalizers ++ [virtSquadFinalizer] }, pods := st.pods } o rf
    ∧ ∀ vs', (reconcilePass st o rf).1.squad = some vs' →
        vs'.finalizers.contains virtSquadFinalizer = true := by
  obtain ⟨sq, pods⟩ := st
  dsimp only at hsq
  subst hsq
  have h1 : reconcilePass { squad := some vs, pods := pods } o rf
      = passTail pods { vs with finalizers := vs.finalizers ++ [virtSquadFinalizer] } rf :=
    reconcilePass_nondeleting_nomarker o rf hnd hfin
  have h2 : reconcilePass { squad := some { vs with
        finalizers := vs.finalizers ++ [virtSquadFinalizer] }, pods := pods } o rf
      = passTail pods { vs with finalizers := vs.finalizers ++ [virtSquadFinalizer] } rf :=
    reconcilePass_nondeleting_marker o rf hnd (contains_marker_append vs.finalizers)
  refine ⟨h1.trans h2.symm, ?_⟩
  intro vs' hvs'
  rw [h1] at hvs'
  have hf := passTail_squad_finalizers pods
    { vs with finalizers := vs.finalizers ++ [virtSquadFinalizer] } rf vs' hvs'
  rw [hf]
  exact contains_marker_append vs.finalizers

theorem c4_marker_added_pass_continues_witness :
    (reconcilePass { squad := some fixSquadNoMarker, pods := [] } allOk false
      = reconcilePass { squad := some { fixSquadNoMarker with
          finalizers := fixSquadNoMarker.finalizers ++ [virtSquadFinalizer] }, pods := [] }
          allOk false)
    ∧ ∀ vs', (reconcilePass { squad := some fixSquadNoMarker, pods := [] }
        allOk false).1.squad = some vs' →
        vs'.finalizers.contains virtSquadFinalizer = true :=
  c4_marker_added_pass_continues { squad := some fixSquadNoMarker, pods := [] }
    fixSquadNoMarker allOk false rfl (by decide) (by decide)

/-! ### Claim C5 -/

theorem passTail_readyFail (pods : List Pod) (vs : VirtSquad) :
    (passTail pods vs true).2.2 = (passTail pods vs false).2.2
    ∧ (passTail pods vs true).2.1 = (passTail pods vs false).2.1
    ∧ (passTail pods vs true).1.pods = (passTail pods vs false).1.pods
    ∧ (∀ vs₁ vs₀, (passTail pods vs true).1.squad = some vs₁ →
        (passTail pods vs false).1.squad = some vs₀ →
        vs₁.status = { vs₀.status with readyPods := 0 }
        ∨ vs₁ = vs₀) := by
  unfold passTail
  dsimp only
  cases hm : (reconcileMembers pods vs).2.2 with
  | none =>
    refine ⟨rfl, rfl, rfl, ?_⟩
    intro vs₁ vs₀ h1 h0
    dsimp only at h1 h0
    right
    rw [← Option.some.inj h1, ← Option.some.inj h0]
  | some s =>
    refine ⟨rfl, rfl, rfl, ?_⟩
    intro vs₁ vs₀ h1 h0
    dsimp only at h1 h0
    left
    rw [← Option.some.inj h1, ← Option.some.inj h0]
    rfl

def fixSquadNil : VirtSquad :=
  { name := "sq", ns := "default", deletionTimestamp := false,
    finalizers := [virtSquadFinalizer],
    spec := { oksana := none, kurtis := none, matt := none, kike := none },
    status := { emptyStatus with readyPods := 5 } }

/-- C5 counterexample: the ready-count list call fails (`readyFail = true`),
yet the pass returns success and still persists a status write (the sentinel
readyPods 5 is overwritten with the zero default) — contradicting "the pass
returns that error and no status write is persisted". -/
theorem c5_counterexample :
    (reconcilePass { squad := some fixSquadNil, pods := [] } allOk true).2.2 = true
    ∧ (reconcilePass { squad := some fixSquadNil, pods := [] } allOk true).1.squad.map
        (fun v => v.status.readyPods) = some 0 := by
  decide

/-- C5 (amended): an error from the ready-count aggregation is logged and
swallowed: the pass with the failing aggregation returns the same success
flag, the same operations and the same pods as the pass whose aggregation
succeeds, and when the pass reaches the status write it persists the status
with readyPods left at its zero default. -/
theorem c5_aggregation_error_swallowed (st : ClusterState) (vs : VirtSquad)
    (o : String → DelOutcome) (hsq : st.squad = some vs)
    (hnd : vs.deletionTimestamp = false) :
    (reconcilePass st o true).2.2 = (reconcilePass st o false).2.2
    ∧ (reconcilePass st o true).2.1 = (reconcilePass st o false).2.1
    ∧ (reconcilePass st o true).1.pods = (reconcilePass st o false).1.pods
    ∧ (∀ vs₁ vs₀, (reconcilePass st o true).1.squad = some vs₁ →
        (reconcilePass st o false).1.squad = some vs₀ →
        vs₁.status = { vs₀.status with readyPods := 0 } ∨ vs₁ = vs₀) := by
  obtain ⟨sq, pods⟩ := st
  dsimp only at hsq
  subst hsq
  by_cases hfin : vs.finalizers.contains virtSquadFinalizer = true
  · rw [reconcilePass_nondeleting_marker o true hnd hfin,
      reconcilePass_nondeleting_marker o false hnd hfin]
    exact passTail_readyFail pods vs
  · have hfin' : vs.finalizers.contains virtSquadFinalizer = false :=
      Bool.of_not_eq_true hfin
    rw [reconcilePass_nondeleting_nomarker o true hnd hfin',
      reconcilePass_nondeleting_nomarker o false hnd hfin']
    exact passTail_readyFail pods _

theorem c5_aggregation_error_swallowed_witness :
    ((reconcilePass { squad := some fixSquadNil, pods := [] } allOk true).2.2
      = (reconcilePass { squad := some fixSquadNil, pods := [] } allOk false).2.2)
    ∧ (reconcilePass { squad := some fixSquadNil, pods := [] } allOk true).2.1
      = (reconcilePass { squad := some fixSquadNil, pods := [] } allOk false).2.1
    ∧ (reconcilePass { squad := some fixSquadNil, pods := [] } allOk true).1.pods
      = (reconcilePass { squad := some fixSquadNil, pods := [] } allOk false).1.pods
    ∧ (∀ vs₁ vs₀,
        (reconcilePass { squad := some fixSquadNil, pods := [] } allOk true).1.squad = some vs₁ →
        (reconcilePass { squad := some fixSquadNil, pods := [] } allOk false).1.squad = some vs₀ →
        vs₁.status = { vs₀.status with readyPods := 0 } ∨ vs₁ = vs₀) :=
  c5_aggregation_error_swallowed { squad := some fixSquadNil, pods := [] }
    fixSquadNil allOk rfl (by decide)

/-! ### Claim C9 -/

theorem members_ready_le_total (pods : List Pod) (vs : VirtSquad)
    (hmem : ∀ p ∈ pods, squadMatchB vs p = true →
      p.labels.member = "oksana" ∨ p.labels.member = "kurtis"
        ∨ p.labels.member = "matt" ∨ p.labels.member = "kike")
    {s1 s2 s3 s4 : List String}
    (hm : (reconcileMembers pods vs).2.2 = some (s1, s2, s3, s4)) :
    ((reconcileMembers pods vs).1.filter
        (fun p => squadMatchB vs p && isPodReady p)).length
      ≤ s1.length + s2.length + s3.length + s4.length := by
  unfold reconcileMembers at hm ⊢
  dsimp only at hm ⊢
  split at hm
  · simp at hm
  · rename_i s1' hx1
    split at hm
    · simp at hm
    · rename_i s2' hx2
      split at hm
      · simp at hm
      · rename_i s3' hx3
        split at hm
        · simp at hm
        · rename_i s4' hx4
          dsimp only at hm
          rw [Option.some.injEq, Prod.mk.injEq, Prod.mk.injEq, Prod.mk.injEq] at hm
          obtain ⟨e1, e2, e3, e4⟩ := hm
          subst e1
          subst e2
          subst e3
          subst e4
          simp only [hx1, hx2, hx3, hx4]
          -- abbreviate the four intermediate pod lists
          have hq : ∀ (mn : String) (p : Pod),
              (memberMatchB vs mn p && isPodReady p) = true → isPodReady p = true :=
            fun mn p hp => (Bool.and_eq_true_iff.mp hp).2
          -- per-member bounds at the member's own step
          have hA1 := step_member_ready_le hx1
          have hA2 := step_member_ready_le hx2
          have hA3 := step_member_ready_le hx3
          have hA4 := step_member_ready_le hx4
          -- monotonicity of each member's ready count through later steps
          have hM12 := step_ready_mono (hq "oksana") hx2
          have hM13 := step_ready_mono (hq "oksana") hx3
          have hM14 := step_ready_mono (hq "oksana") hx4
          have hM23 := step_ready_mono (hq "kurtis") hx3
          have hM24 := step_ready_mono (hq "kurtis") hx4
          have hM34 := step_ready_mono (hq "matt") hx4
          -- every pod in the final list is an original pod or carries one of
          -- the four member labels
          have horig : ∀ p ∈ (reconcileTeamMemberM
                (reconcileTeamMemberM
                  (reconcileTeamMemberM
                    (reconcileTeamMemberM pods vs "oksana" vs.spec.oksana).1
                    vs "kurtis" vs.spec.kurtis).1
                  vs "matt" vs.spec.matt).1
                vs "kike" vs.spec.kike).1,
              squadMatchB vs p = true →
              p.labels.member = "oksana" ∨ p.labels.member = "kurtis"
                ∨ p.labels.member = "matt" ∨ p.labels.member = "kike" := by
            intro p hp hsq
            rcases step_origin hx4 hp with hp3 | hk
            · rcases step_origin hx3 hp3 with hp2 | hk
              · rcases step_origin hx2 hp2 with hp1 | hk
                · rcases step_origin hx1 hp1 with hp0 | hk
                  · exact hmem p hp0 hsq
                  · exact Or.inl hk
                · exact Or.inr (Or.inl hk)
              · exact Or.inr (Or.inr (Or.inl hk))
            · exact Or.inr (Or.inr (Or.inr hk))
          rw [← List.countP_eq_length_filter]
          rw [countP_ready_partition vs _ horig]
          omega

/-- C6: after a successful pass (and aggregation), the persisted status
satisfies readyWorkers ≤ totalWorkers, given that every squad-labelled pod in
the namespace carries one of the four member labels (i.e. is an owned
worker). -/
theorem c6_ready_le_total (st : ClusterState) (vs : VirtSquad)
    (hsq : st.squad = some vs) (hnd : vs.deletionTimestamp = false)
    (hmem : ∀ p ∈ st.pods, squadMatchB vs p = true →
      p.labels.member = "oksana" ∨ p.labels.member = "kurtis"
        ∨ p.labels.member = "matt" ∨ p.labels.member = "kike")
    (hok : (reconcilePass st allOk false).2.2 = true) :
    ∀ vs', (reconcilePass st allOk false).1.squad = some vs' →
      vs'.status.readyPods ≤ vs'.status.totalPods := by
  obtain ⟨sq, pods⟩ := st
  dsimp only at hsq hmem
  subst hsq
  by_cases hfin : vs.finalizers.contains virtSquadFinalizer = true
  · rw [reconcilePass_nondeleting_marker allOk false hnd hfin] at hok ⊢
    unfold passTail at hok ⊢
    dsimp only at hok ⊢
    cases hm : (reconcileMembers pods vs).2.2 with
    | none =>
      rw [hm] at hok
      exact absurd hok (by simp)
    | some s =>
      obtain ⟨s1, s2, s3, s4⟩ := s
      intro vs' hvs'
      dsimp only at hvs'
      rw [← Option.some.inj hvs']
      dsimp only
      have hb := members_ready_le_total pods vs hmem hm
      omega
  · have hfin' : vs.finalizers.contains virtSquadFinalizer = false :=
      Bool.of_not_eq_true hfin
    rw [reconcilePass_nondeleting_nomarker allOk false hnd hfin'] at hok ⊢
    unfold passTail at hok ⊢
    dsimp only at hok ⊢
    have hmem' : ∀ p ∈ pods,
        squadMatchB { vs with finalizers := vs.finalizers ++ [virtSquadFinalizer] } p = true →
        p.labels.member = "oksana" ∨ p.labels.member = "kurtis"
          ∨ p.labels.member = "matt" ∨ p.labels.member = "kike" := hmem
    cases hm : (reconcileMembers pods
        { vs with finalizers := vs.finalizers ++ [virtSquadFinalizer] }).2.2 with
    | none =>
      rw [hm] at hok
      exact absurd hok (by simp)
    | some s =>
      obtain ⟨s1, s2, s3, s4⟩ := s
      intro vs' hvs'
      dsimp only at hvs'
      rw [← Option.some.inj hvs']
      dsimp only
      have hb := members_ready_le_total pods
        { vs with finalizers := vs.finalizers ++ [virtSquadFinalizer] } hmem' hm
      omega

def fixPodReadyA0 : Pod :=
  { name := "a-0", ns := "default", labels := fixLabels "oksana",
    conditions := [{ ctype := "Ready", cstatus := "True" }] }

theorem c6_ready_le_total_witness :
    (((reconcilePass { squad := some fixSquad, pods := [fixPodReadyA0] }
          allOk false).1.squad).getD fixSquad).status.readyPods
      ≤ (((reconcilePass { squad := some fixSquad, pods := [fixPodReadyA0] }
          allOk false).1.squad).getD fixSquad).status.totalPods :=
  c6_ready_le_total { squad := some fixSquad, pods := [fixPodReadyA0] } fixSquad
    rfl (by decide) (by decide) (by decide)
    (((reconcilePass { squad := some fixSquad, pods := [fixPodReadyA0] }
        allOk false).1.squad).getD fixSquad) (by decide)

/-! ### Claim C7 -/

/-- Convergence of a member step only depends on the member's own pod list. -/
theorem stepConverged_congr {vs : VirtSquad} {m : String} {sp : Option TeamMemberSpec}
    {T T' : List Pod}
    (hf : T.filter (memberMatchB vs m) = T'.filter (memberMatchB vs m))
    (hc : StepConverged vs m sp T') : StepConverged vs m sp T := by
  match sp with
  | none =>
    show T.filter (memberMatchB vs m) = []
    rw [hf]
    exact hc
  | some ⟨none, rep⟩ =>
    show T.filter (memberMatchB vs m) = []
    rw [hf]
    exact hc
  | some ⟨some base, rep⟩ =>
    obtain ⟨hc1, hc2⟩ := hc
    constructor
    · rw [hf]
      exact hc1
    · rw [hf]
      exact hc2

/-- After a successful pass over the four members, the resulting pod list is
converged for every member. -/
theorem members_steps_converged (pods : List Pod) (vs : VirtSquad)
    (hu : UniqP pods) (hlen : (pods.length : Int) < 2 ^ 31)
    (hro : repInRange vs.spec.oksana) (hrk : repInRange vs.spec.kurtis)
    (hrm : repInRange vs.spec.matt) (hrki : repInRange vs.spec.kike)
    {s1 s2 s3 s4 : List String}
    (hm : (reconcileMembers pods vs).2.2 = some (s1, s2, s3, s4)) :
    StepConverged vs "oksana" vs.spec.oksana (reconcileMembers pods vs).1
    ∧ StepConverged vs "kurtis" vs.spec.kurtis (reconcileMembers pods vs).1
    ∧ StepConverged vs "matt" vs.spec.matt (reconcileMembers pods vs).1
    ∧ StepConverged vs "kike" vs.spec.kike (reconcileMembers pods vs).1 := by
  unfold reconcileMembers at hm ⊢
  dsimp only at hm ⊢
  split at hm
  · simp at hm
  · rename_i s1' hx1
    split at hm
    · simp at hm
    · rename_i s2' hx2
      split at hm
      · simp at hm
      · rename_i s3' hx3
        split at hm
        · simp at hm
        · rename_i s4' hx4
          simp only [hx1, hx2, hx3, hx4]
          -- uniqueness through the chain
          have u1 := step_uniq hx1 hu
          have u2 := step_uniq hx2 u1
          have u3 := step_uniq hx3 u2
          -- member lists are untouched by other members' steps
          have hok : ("oksana" : String) ≠ "kurtis" := by decide
          have hom : ("oksana" : String) ≠ "matt" := by decide
          have hoki : ("oksana" : String) ≠ "kike" := by decide
          have hkm : ("kurtis" : String) ≠ "matt" := by decide
          have hkki : ("kurtis" : String) ≠ "kike" := by decide
          have hmki : ("matt" : String) ≠ "kike" := by decide
          have hp2k := step_preserves_other hok hu hx1
          have hp3m1 := step_preserves_other hom hu hx1
          have hp3m2 := step_preserves_other hkm u1 hx2
          have hp4k1 := step_preserves_other hoki hu hx1
          have hp4k2 := step_preserves_other hkki u1 hx2
          have hp4k3 := step_preserves_other hmki u2 hx3
          -- later preservation, to carry convergence to the final state
          have hcar_o2 := step_preserves_other hok.symm u1 hx2
          have hcar_o3 := step_preserves_other hom.symm u2 hx3
          have hcar_o4 := step_preserves_other hoki.symm u3 hx4
          have hcar_k3 := step_preserves_other hkm.symm u2 hx3
          have hcar_k4 := step_preserves_other hkki.symm u3 hx4
          have hcar_m4 := step_preserves_other hmki.symm u3 hx4
          -- per-step listing size bounds, transported back to the original list
          have hb0 : ∀ mn : String, ((stepE pods vs mn).length : Int) < 2 ^ 31 := by
            intro mn
            have := List.length_filter_le (memberMatchB vs mn) pods
            show (((pods.filter (memberMatchB vs mn)).length : Int)) < 2 ^ 31
            omega
          have hlen1 : ((stepE (reconcileTeamMemberM pods vs "oksana" vs.spec.oksana).1
              vs "kurtis").length : Int) < 2 ^ 31 := by
            show (((reconcileTeamMemberM pods vs "oksana" vs.spec.oksana).1.filter
              (memberMatchB vs "kurtis")).length : Int) < 2 ^ 31
            rw [hp2k]
            exact hb0 "kurtis"
          have hlen2 : ((stepE (reconcileTeamMemberM
              (reconcileTeamMemberM pods vs "oksana" vs.spec.oksana).1
              vs "kurtis" vs.spec.kurtis).1 vs "matt").length : Int) < 2 ^ 31 := by
            show (((reconcileTeamMemberM
              (reconcileTeamMemberM pods vs "oksana" vs.spec.oksana).1
              vs "kurtis" vs.spec.kurtis).1.filter
                (memberMatchB vs "matt")).length : Int) < 2 ^ 31
            rw [hp3m2, hp3m1]
            exact hb0 "matt"
          have hlen3 : ((stepE (reconcileTeamMemberM (reconcileTeamMemberM
              (reconcileTeamMemberM pods vs "oksana" vs.spec.oksana).1
              vs "kurtis" vs.spec.kurtis).1 vs "matt" vs.spec.matt).1
              vs "kike").length : Int) < 2 ^ 31 := by
            show (((reconcileTeamMemberM (reconcileTeamMemberM
              (reconcileTeamMemberM pods vs "oksana" vs.spec.oksana).1
              vs "kurtis" vs.spec.kurtis).1 vs "matt" vs.spec.matt).1.filter
                (memberMatchB vs "kike")).length : Int) < 2 ^ 31
            rw [hp4k3, hp4k2, hp4k1]
            exact hb0 "kike"
          -- convergence at each member's own step
          have hc1 := converged_after_step hu (hb0 "oksana") hro hx1
          have hc2 := converged_after_step u1 hlen1 hrk hx2
          have hc3 := converged_after_step u2 hlen2 hrm hx3
          have hc4 := converged_after_step u3 hlen3 hrki hx4
          refine ⟨?_, ?_, ?_, ?_⟩
          · exact stepConverged_congr (by rw [hcar_o4, hcar_o3, hcar_o2]) hc1
          · exact stepConverged_congr (by rw [hcar_k4, hcar_k3]) hc2
          · exact stepConverged_congr (by rw [hcar_m4]) hc3
          · exact hc4

/-- If every member is already converged, the member phase changes nothing
and issues no create or delete call. -/
theorem passTail_second_no_ops (m1 : List Pod) (vs2 : VirtSquad) (rf : Bool)
    (hc1 : StepConverged vs2 "oksana" vs2.spec.oksana m1)
    (hc2 : StepConverged vs2 "kurtis" vs2.spec.kurtis m1)
    (hc3 : StepConverged vs2 "matt" vs2.spec.matt m1)
    (hc4 : StepConverged vs2 "kike" vs2.spec.kike m1) :
    (passTail m1 vs2 rf).2.1 = [] := by
  obtain ⟨so, ho⟩ := step_noop_of_converged hc1
  obtain ⟨sk, hk⟩ := step_noop_of_converged hc2
  obtain ⟨sm, hsm⟩ := step_noop_of_converged hc3
  obtain ⟨ski, hski⟩ := step_noop_of_converged hc4
  have hmem : reconcileMembers m1 vs2 = (m1, [], some (so, sk, sm, ski)) := by
    unfold reconcileMembers
    rw [ho]
    dsimp only
    rw [hk]
    dsimp only
    rw [hsm]
    dsimp only
    rw [hski]
    rfl
  unfold passTail
  dsimp only
  rw [hmem]

/-- A pass over a converged, marker-carrying (or absent) resource issues no
create or delete call. -/
theorem reconcilePass_ops_nil (st1 : ClusterState)
    (h : ∀ vs', st1.squad = some vs' →
      vs'.deletionTimestamp = false
      ∧ vs'.finalizers.contains virtSquadFinalizer = true
      ∧ StepConverged vs' "oksana" vs'.spec.oksana st1.pods
      ∧ StepConverged vs' "kurtis" vs'.spec.kurtis st1.pods
      ∧ StepConverged vs' "matt" vs'.spec.matt st1.pods
      ∧ StepConverged vs' "kike" vs'.spec.kike st1.pods) :
    (reconcilePass st1 allOk false).2.1 = [] := by
  obtain ⟨sq, pods⟩ := st1
  cases sq with
  | none => rfl
  | some vs' =>
    obtain ⟨hnd, hfin, h1, h2, h3, h4⟩ := h vs' rfl
    rw [reconcilePass_nondeleting_marker allOk false hnd hfin]
    exact passTail_second_no_ops _ _ _ h1 h2 h3 h4

/-- C7 (amended): for every resource state with per-namespace-unique pod
names, int32-range replica counts and fewer than `2^31` pods, if the first
reconciliation pass completes without error then a second pass with no
external change issues zero create calls and zero delete calls. -/
theorem c7_second_pass_no_ops (st st1 : ClusterState) (ops1 : List Op)
    (hu : UniqP st.pods) (hlen : (st.pods.length : Int) < 2 ^ 31)
    (hrep : ∀ vs, st.squad = some vs →
      repInRange vs.spec.oksana ∧ repInRange vs.spec.kurtis
        ∧ repInRange vs.spec.matt ∧ repInRange vs.spec.kike)
    (h1 : reconcilePass st allOk false = (st1, ops1, true)) :
    (reconcilePass st1 allOk false).2.1 = [] := by
  obtain ⟨sq, pods⟩ := st
  dsimp only at hu hlen hrep
  cases sq with
  | none =>
    have hval : reconcilePass { squad := none, pods := pods } allOk false
        = ({ squad := none, pods := pods }, [], true) := rfl
    rw [hval] at h1
    rw [Prod.mk.injEq, Prod.mk.injEq] at h1
    rw [← h1.1]
    rfl
  | some vs =>
    obtain ⟨hro, hrk, hrm, hrki⟩ := hrep vs rfl
    by_cases hd : vs.deletionTimestamp = true
    · by_cases hfin : vs.finalizers.contains virtSquadFinalizer = true
      · rw [reconcilePass_deleting_marker allOk false hd hfin] at h1
        have hall : ∀ v ∈ pods.filter (squadMatchB vs), allOk v.name = DelOutcome.ok :=
          fun _ _ => rfl
        have hstate : finalizeVirtSquadM pods vs allOk
            = (deleteAll pods (pods.filter (squadMatchB vs)),
               (pods.filter (squadMatchB vs)).map (fun v => Op.delete v.name v.ns), true) :=
          finalizeLoop_allOk_state allOk (pods.filter (squadMatchB vs)) pods hall
        unfold deletionTail at h1
        rw [hstate] at h1
        dsimp only at h1
        by_cases hemp : (vs.finalizers.filter (fun s => !(s == virtSquadFinalizer))).isEmpty
          = true
        · rw [if_pos rfl] at h1   -- the success test reduces to `true = true`
          rw [if_pos hemp] at h1
          rw [Prod.mk.injEq] at h1
          rw [← h1.1]
          rfl
        · rw [if_pos rfl] at h1
          rw [if_neg (by rw [Bool.of_not_eq_true hemp]; exact Bool.noConfusion)] at h1
          rw [Prod.mk.injEq] at h1
          rw [← h1.1]
          have hd2 : (VirtSquad.mk vs.name vs.ns vs.deletionTimestamp (vs.finalizers.filter (fun s => !(s == virtSquadFinalizer))) vs.spec vs.status).deletionTimestamp = true := hd
          have hf2 : (VirtSquad.mk vs.name vs.ns vs.deletionTimestamp (vs.finalizers.filter (fun s => !(s == virtSquadFinalizer))) vs.spec vs.status).finalizers.contains virtSquadFinalizer = false := contains_filter_marker vs.finalizers
          rw [reconcilePass_deleting_nomarker allOk false hd2 hf2]
      · rw [reconcilePass_deleting_nomarker allOk false hd
          (Bool.of_not_eq_true hfin)] at h1
        rw [Prod.mk.injEq] at h1
        rw [← h1.1]
        rw [reconcilePass_deleting_nomarker allOk false hd (Bool.of_not_eq_true hfin)]
    · have hnd : vs.deletionTimestamp = false := Bool.of_not_eq_true hd
      by_cases hfin : vs.finalizers.contains virtSquadFinalizer = true
      · rw [reconcilePass_nondeleting_marker allOk false hnd hfin] at h1
        unfold passTail at h1
        dsimp only at h1
        cases hm : (reconcileMembers pods vs).2.2 with
        | none =>
          rw [hm] at h1
          dsimp only at h1
          rw [Prod.mk.injEq, Prod.mk.injEq] at h1
          exact absurd h1.2.2 (by simp)
        | some s =>
          obtain ⟨s1, s2, s3, s4⟩ := s
          rw [hm] at h1
          dsimp only at h1
          rw [Prod.mk.injEq, Prod.mk.injEq] at h1
          rw [← h1.1]
          obtain ⟨hcv1, hcv2, hcv3, hcv4⟩ :=
            members_steps_converged pods vs hu hlen hro hrk hrm hrki hm
          apply reconcilePass_ops_nil
          intro vs' hvs'
          dsimp only at hvs'
          rw [← Option.some.inj hvs']
          exact ⟨hnd, hfin, hcv1, hcv2, hcv3, hcv4⟩
      · have hfin' : vs.finalizers.contains virtSquadFinalizer = false :=
          Bool.of_not_eq_true hfin
        rw [reconcilePass_nondeleting_nomarker allOk false hnd hfin'] at h1
        unfold passTail at h1
        dsimp only at h1
        cases hm : (reconcileMembers pods
            { vs with finalizers := vs.finalizers ++ [virtSquadFinalizer] }).2.2 with
        | none =>
          rw [hm] at h1
          dsimp only at h1
          rw [Prod.mk.injEq, Prod.mk.injEq] at h1
          exact absurd h1.2.2 (by simp)
        | some s =>
          obtain ⟨s1, s2, s3, s4⟩ := s
          rw [hm] at h1
          dsimp only at h1
          rw [Prod.mk.injEq, Prod.mk.injEq] at h1
          rw [← h1.1]
          obtain ⟨hcv1, hcv2, hcv3, hcv4⟩ :=
            members_steps_converged pods
              { vs with finalizers := vs.finalizers ++ [virtSquadFinalizer] }
              hu hlen hro hrk hrm hrki hm
          apply reconcilePass_ops_nil
          intro vs' hvs'
          dsimp only at hvs'
          rw [← Option.some.inj hvs']
          exact ⟨hnd, contains_marker_append vs.finalizers, hcv1, hcv2, hcv3, hcv4⟩

def fixPodKurtisA0 : Pod :=
  { name := "a-0", ns := "default", labels := fixLabels "kurtis", conditions := [] }

/-- C7 counterexample: a foreign pod named `a-0` (labelled for kurtis) makes
oksana's create fail with AlreadyExists; the first pass aborts, and the
second run issues the same create call again — not zero create calls, so the
claim fails for this resource state as stated (without requiring the first
pass to succeed). -/
theorem c7_counterexample :
    (reconcilePass { squad := some fixSquad, pods := [fixPodKurtisA0] } allOk false).2.2 = false
    ∧ (reconcilePass (reconcilePass { squad := some fixSquad, pods := [fixPodKurtisA0] }
        allOk false).1 allOk false).2.1 = [Op.create "a-0" "default"] := by
  decide

theorem c7_second_pass_no_ops_witness :
    (reconcilePass (reconcilePass { squad := some fixSquad, pods := [] } allOk false).1
        allOk false).2.1 = [] :=
  c7_second_pass_no_ops { squad := some fixSquad, pods := [] }
    (reconcilePass { squad := some fixSquad, pods := [] } allOk false).1
    (reconcilePass { squad := some fixSquad, pods := [] } allOk false).2.1
    List.Pairwise.nil (by decide)
    (by
      intro vs hv
      dsimp only at hv
      have h := Option.some.inj hv
      subst h
      exact ⟨(by decide : -(2 ^ 31) ≤ (1 : Int) ∧ (1 : Int) < 2 ^ 31),
        trivial, trivial, trivial⟩)
    (by decide)
